import Mathlib

set_option maxHeartbeats 1000000

/-!
Shallow embedding of the RedisClient wire-protocol core
(src/cmd.rs, src/parser.rs, src/types.rs).

Bytes are modelled as `Nat` (values below 256 on the wire); Rust `String`
values are modelled as their UTF-8 byte lists (`List Nat`), which is the
representation Rust itself uses, so string equality is byte-list equality.
Rust `u64`/`usize` become `Nat`; `i64` becomes `Int` with explicit
`2^63` bounds where the code checks them (`str::parse::<i64>`).
-/

namespace RedisClient

/-! ### Decimal rendering (Rust `to_string` on unsigned integers)

`toDecAux` renders `n` in decimal with an accumulator; the fuel argument
only bounds the recursion (each step divides by 10, so fuel `n + 1` is
always enough) and makes the definition structurally recursive. -/

def toDecAux : Nat → Nat → List Nat → List Nat
  | 0, _, acc => acc
  | fuel + 1, n, acc =>
    if n < 10 then (48 + n) :: acc
    else toDecAux fuel (n / 10) ((48 + n % 10) :: acc)

/-- Decimal ASCII rendering of a natural number, as Rust `n.to_string()`:
no leading zeros, and `0` renders as `"0"`. -/
def natToDecimal (n : Nat) : List Nat := toDecAux (n + 1) n []

/-- ASCII bytes of a string literal (used for protocol keywords, all ASCII). -/
def asciiBytes (s : String) : List Nat := s.data.map Char.toNat

theorem toDecAux_fuel (n : Nat) : ∀ fuel₁ fuel₂ acc, n < fuel₁ → n < fuel₂ →
    toDecAux fuel₁ n acc = toDecAux fuel₂ n acc := by
  induction n using Nat.strong_induction_on with
  | _ n ih =>
    intro f₁ f₂ acc h₁ h₂
    cases f₁ with
    | zero => omega
    | succ f₁ =>
      cases f₂ with
      | zero => omega
      | succ f₂ =>
        simp only [toDecAux]
        by_cases h : n < 10
        · simp [h]
        · have hd : n / 10 < n := Nat.div_lt_self (by omega) (by omega)
          simp only [h, if_false]
          exact ih (n / 10) hd f₁ f₂ _ (by omega) (by omega)

theorem toDecAux_acc (n : Nat) : ∀ fuel acc, n < fuel →
    toDecAux fuel n acc = toDecAux fuel n [] ++ acc := by
  induction n using Nat.strong_induction_on with
  | _ n ih =>
    intro fuel acc h
    cases fuel with
    | zero => omega
    | succ f =>
      simp only [toDecAux]
      by_cases hn : n < 10
      · simp [hn]
      · have hd : n / 10 < n := Nat.div_lt_self (by omega) (by omega)
        simp only [hn, if_false]
        rw [ih (n / 10) hd f _ (by omega), ih (n / 10) hd f [48 + n % 10] (by omega)]
        simp

/-- Unfolding equation for `natToDecimal` that hides the fuel. -/
theorem natToDecimal_eq (n : Nat) :
    natToDecimal n = if n < 10 then [48 + n] else natToDecimal (n / 10) ++ [48 + n % 10] := by
  by_cases h : n < 10
  · simp [natToDecimal, toDecAux, h]
  · have hd : n / 10 < n := Nat.div_lt_self (by omega) (by omega)
    simp only [h, if_false]
    show toDecAux (n + 1) n [] = _
    simp only [toDecAux, h, if_false]
    rw [toDecAux_acc (n / 10) n [48 + n % 10] (by omega),
        toDecAux_fuel (n / 10) n (n / 10 + 1) [] (by omega) (by omega)]
    rfl

theorem natToDecimal_digits (n : Nat) : ∀ b ∈ natToDecimal n, 48 ≤ b ∧ b ≤ 57 := by
  induction n using Nat.strong_induction_on with
  | _ n ih =>
    rw [natToDecimal_eq]
    by_cases h : n < 10
    · simp [h]; omega
    · have hd : n / 10 < n := Nat.div_lt_self (by omega) (by omega)
      have hm : n % 10 < 10 := Nat.mod_lt _ (by omega)
      simp only [h, if_false]
      intro b hb
      rcases List.mem_append.mp hb with hb | hb
      · exact ih (n / 10) hd b hb
      · simp at hb; omega

theorem natToDecimal_ne_nil (n : Nat) : natToDecimal n ≠ [] := by
  rw [natToDecimal_eq]
  by_cases h : n < 10 <;> simp [h]

/-- Reading decimal ASCII digits back into a number (most significant first). -/
def digitsToNat (s : List Nat) : Nat := s.foldl (fun a b => 10 * a + (b - 48)) 0

theorem digitsToNat_natToDecimal (n : Nat) : digitsToNat (natToDecimal n) = n := by
  induction n using Nat.strong_induction_on with
  | _ n ih =>
    rw [natToDecimal_eq]
    by_cases h : n < 10
    · simp [h, digitsToNat]
    · have hd : n / 10 < n := Nat.div_lt_self (by omega) (by omega)
      simp only [h, if_false]
      have := ih (n / 10) hd
      simp only [digitsToNat] at this ⊢
      rw [List.foldl_append, this]
      simp
      omega

theorem natToDecimal_length_ge_two {n : Nat} (h : 10 ≤ n) : 2 ≤ (natToDecimal n).length := by
  rw [natToDecimal_eq]
  have : ¬ n < 10 := by omega
  simp only [this, if_false, List.length_append]
  have := natToDecimal_ne_nil (n / 10)
  have : 1 ≤ (natToDecimal (n / 10)).length := by
    cases hnd : natToDecimal (n / 10) with
    | nil => exact absurd hnd this
    | cons a l => simp
  simp; omega

/-! ### `str::parse::<i64>` (used by `Parser::read_int_value`)

Rust's `i64::from_str` accepts an optional `+`/`-` sign followed by one or
more ASCII decimal digits, and fails on overflow past the `i64` range. -/

def isDigitB (b : Nat) : Bool := decide (48 ≤ b ∧ b ≤ 57)

def parseDigits (s : List Nat) : Option Nat :=
  if s = [] then none
  else if s.all isDigitB then some (digitsToNat s) else none

/-- `2 ^ 63`, so `i64` values are exactly `-I64Bound ≤ v ≤ I64Bound - 1`. -/
def I64Bound : Nat := 9223372036854775808

def parseI64 (s : List Nat) : Option Int :=
  match s with
  | [] => none
  | b :: r =>
    if b = 43 then
      (parseDigits r).bind (fun n => if n ≤ I64Bound - 1 then some (n : Int) else none)
    else if b = 45 then
      (parseDigits r).bind (fun n => if n ≤ I64Bound then some (-(n : Int)) else none)
    else
      (parseDigits (b :: r)).bind (fun n => if n ≤ I64Bound - 1 then some (n : Int) else none)

/-- Decimal ASCII rendering of a signed integer, as Rust `i.to_string()`. -/
def intToDecimal (i : Int) : List Nat :=
  if i < 0 then 45 :: natToDecimal (-i).toNat else natToDecimal i.toNat

theorem parseDigits_natToDecimal (n : Nat) : parseDigits (natToDecimal n) = some n := by
  have hne := natToDecimal_ne_nil n
  have hdig := natToDecimal_digits n
  simp only [parseDigits, hne, if_false]
  have : (natToDecimal n).all isDigitB = true := by
    rw [List.all_eq_true]
    intro b hb
    have := hdig b hb
    simp [isDigitB]; omega
  simp [this, digitsToNat_natToDecimal]

theorem parseI64_digits {s : List Nat} (hne : s ≠ [])
    (hdig : ∀ b ∈ s, 48 ≤ b ∧ b ≤ 57) (hb : digitsToNat s ≤ I64Bound - 1) :
    parseI64 s = some ((digitsToNat s : Nat) : Int) := by
  cases s with
  | nil => exact absurd rfl hne
  | cons b r =>
    have hb0 := hdig b (by simp)
    have h43 : ¬ b = 43 := by omega
    have h45 : ¬ b = 45 := by omega
    simp only [parseI64, h43, if_false, h45]
    have : parseDigits (b :: r) = some (digitsToNat (b :: r)) := by
      simp only [parseDigits, if_neg (List.cons_ne_nil b r)]
      have : (b :: r).all isDigitB = true := by
        rw [List.all_eq_true]
        intro x hx
        have := hdig x hx
        simp [isDigitB]; omega
      simp [this]
    simp [this, hb]

theorem parseI64_intToDecimal {i : Int} (h₁ : -(I64Bound : Int) ≤ i) (h₂ : i < I64Bound) :
    parseI64 (intToDecimal i) = some i := by
  by_cases hneg : i < 0
  · simp only [intToDecimal, hneg, if_true]
    have hto : ((-i).toNat : Int) = -i := Int.toNat_of_nonneg (by omega)
    simp only [parseI64, if_neg (by omega : ¬ (45 : Nat) = 43), if_pos rfl]
    rw [parseDigits_natToDecimal]
    have hle : (-i).toNat ≤ I64Bound := by omega
    simp only [Option.some_bind, if_pos hle, Option.some.injEq]
    rw [hto]
    simp
  · simp only [intToDecimal, hneg, if_false]
    have hto : (i.toNat : Int) = i := Int.toNat_of_nonneg (by omega)
    have hdig := natToDecimal_digits i.toNat
    have hne := natToDecimal_ne_nil i.toNat
    rw [parseI64_digits hne hdig]
    · rw [digitsToNat_natToDecimal, hto]
    · rw [digitsToNat_natToDecimal]; omega

/-! ### UTF-8 validity (Rust `String::from_utf8` in `read_string_line`)

A Rust `String` is a UTF-8 byte sequence; `String::from_utf8` succeeds
exactly on valid UTF-8 (rejecting overlong forms, surrogates and values
above U+10FFFF).  We keep strings as their byte lists and model the
conversion as this validity check. -/

def contB (b : Nat) : Bool := decide (128 ≤ b ∧ b ≤ 191)

def utf8Valid : List Nat → Bool
  | [] => true
  | b0 :: rest =>
    if b0 < 128 then utf8Valid rest
    else match rest with
    | [] => false
    | b1 :: rest1 =>
      if 194 ≤ b0 ∧ b0 ≤ 223 then contB b1 && utf8Valid rest1
      else match rest1 with
      | [] => false
      | b2 :: rest2 =>
        if b0 = 224 then decide (160 ≤ b1 ∧ b1 ≤ 191) && contB b2 && utf8Valid rest2
        else if (225 ≤ b0 ∧ b0 ≤ 236) ∨ b0 = 238 ∨ b0 = 239 then
          contB b1 && contB b2 && utf8Valid rest2
        else if b0 = 237 then decide (128 ≤ b1 ∧ b1 ≤ 159) && contB b2 && utf8Valid rest2
        else match rest2 with
        | [] => false
        | b3 :: rest3 =>
          if b0 = 240 then decide (144 ≤ b1 ∧ b1 ≤ 191) && contB b2 && contB b3 && utf8Valid rest3
          else if 241 ≤ b0 ∧ b0 ≤ 243 then contB b1 && contB b2 && contB b3 && utf8Valid rest3
          else if b0 = 244 then decide (128 ≤ b1 ∧ b1 ≤ 143) && contB b2 && contB b3 && utf8Valid rest3
          else false

theorem utf8Valid_ascii : ∀ {s : List Nat}, (∀ b ∈ s, b < 128) → utf8Valid s = true := by
  intro s
  induction s with
  | nil => intro _; rfl
  | cons b r ih =>
    intro h
    have hb : b < 128 := h b (by simp)
    rw [utf8Valid.eq_def]
    simp only [hb, if_true]
    exact ih (fun x hx => h x (by simp [hx]))

/-! ### Rust `str::trim` (used by `Parser::read_int_value`)

`str::trim` removes leading and trailing `char::is_whitespace` characters,
i.e. the Unicode White_Space set: U+0009..U+000D, U+0020, U+0085, U+00A0,
U+1680, U+2000..U+200A, U+2028, U+2029, U+202F, U+205F, U+3000.
On the valid-UTF-8 byte strings that reach it (the input has passed
`String::from_utf8`), trimming chars equals stripping the corresponding
UTF-8 byte sequences at either end, which is what these functions do.
`rustTrimEndRev` works on the reversed byte list, matching the reversed
encodings of the whitespace characters. -/

def isWsByte1 (b : Nat) : Bool := decide (b = 9 ∨ b = 10 ∨ b = 11 ∨ b = 12 ∨ b = 13 ∨ b = 32)

/-- Length of the UTF-8 encoding of a whitespace character at the head of
the byte list, or 0 when the head is not whitespace. -/
def wsPrefixLen : List Nat → Nat
  | [] => 0
  | [b] => if isWsByte1 b then 1 else 0
  | [b, c] =>
    if isWsByte1 b then 1
    else if b = 194 ∧ (c = 133 ∨ c = 160) then 2
    else 0
  | b :: c :: d :: _ =>
    if isWsByte1 b then 1
    else if b = 194 ∧ (c = 133 ∨ c = 160) then 2
    else if b = 225 ∧ c = 154 ∧ d = 128 then 3
    else if b = 226 ∧ ((c = 128 ∧ ((128 ≤ d ∧ d ≤ 138) ∨ d = 168 ∨ d = 169 ∨ d = 175)) ∨ (c = 129 ∧ d = 159)) then 3
    else if b = 227 ∧ c = 128 ∧ d = 128 then 3
    else 0

/-- Length of the reversed UTF-8 encoding of a whitespace character at the
head of the reversed byte list, or 0 when the last character is not
whitespace. -/
def wsSuffixRevLen : List Nat → Nat
  | [] => 0
  | [b] => if isWsByte1 b then 1 else 0
  | [b, c] =>
    if isWsByte1 b then 1
    else if (b = 133 ∨ b = 160) ∧ c = 194 then 2
    else 0
  | b :: c :: d :: _ =>
    if isWsByte1 b then 1
    else if (b = 133 ∨ b = 160) ∧ c = 194 then 2
    else if b = 128 ∧ c = 154 ∧ d = 225 then 3
    else if ((128 ≤ b ∧ b ≤ 138) ∨ b = 168 ∨ b = 169 ∨ b = 175) ∧ c = 128 ∧ d = 226 then 3
    else if b = 159 ∧ c = 129 ∧ d = 226 then 3
    else if b = 128 ∧ c = 128 ∧ d = 227 then 3
    else 0

/-- Repeatedly strip the whitespace unit `f` finds at the head; the fuel,
always called with the list length, makes the recursion structural. -/
def stripAux : Nat → (List Nat → Nat) → List Nat → List Nat
  | 0, _, s => s
  | fuel + 1, f, s => if f s = 0 then s else stripAux fuel f (s.drop (f s))

def rustTrimStart (s : List Nat) : List Nat := stripAux s.length wsPrefixLen s

def rustTrimEndRev (s : List Nat) : List Nat := stripAux s.length wsSuffixRevLen s

/-- Rust `line.trim()` on the byte representation of a string. -/
def rustTrim (s : List Nat) : List Nat := (rustTrimEndRev (rustTrimStart s).reverse).reverse

theorem wsPrefixLen_stop {b : Nat} (r : List Nat) (h1 : 43 ≤ b) (h2 : b ≤ 57) :
    wsPrefixLen (b :: r) = 0 := by
  have hws : isWsByte1 b = false := by simp [isWsByte1]; omega
  match r with
  | [] => simp [wsPrefixLen, hws]
  | [c] => simp [wsPrefixLen, hws]; omega
  | c :: d :: t =>
    simp only [wsPrefixLen, hws, Bool.false_eq_true, if_false]
    split_ifs <;> omega

theorem wsSuffixRevLen_stop {b : Nat} (r : List Nat) (h1 : 43 ≤ b) (h2 : b ≤ 57) :
    wsSuffixRevLen (b :: r) = 0 := by
  have hws : isWsByte1 b = false := by simp [isWsByte1]; omega
  match r with
  | [] => simp [wsSuffixRevLen, hws]
  | [c] => simp [wsSuffixRevLen, hws]; omega
  | c :: d :: t =>
    simp only [wsSuffixRevLen, hws, Bool.false_eq_true, if_false]
    split_ifs <;> omega

theorem stripAux_stop {f : List Nat → Nat} {s : List Nat} (h : f s = 0) :
    ∀ fuel, stripAux fuel f s = s := by
  intro fuel
  cases fuel with
  | zero => rfl
  | succ fuel => simp [stripAux, h]

theorem rustTrimStart_stop {s : List Nat} (h : wsPrefixLen s = 0) : rustTrimStart s = s :=
  stripAux_stop h _

theorem rustTrimEndRev_stop {s : List Nat} (h : wsSuffixRevLen s = 0) : rustTrimEndRev s = s :=
  stripAux_stop h _

theorem wsPrefixLen_ws {b : Nat} (r : List Nat) (h : isWsByte1 b = true) :
    wsPrefixLen (b :: r) = 1 := by
  match r with
  | [] => simp [wsPrefixLen, h]
  | [c] => simp [wsPrefixLen, h]
  | c :: d :: t => simp [wsPrefixLen, h]

theorem wsSuffixRevLen_ws {b : Nat} (r : List Nat) (h : isWsByte1 b = true) :
    wsSuffixRevLen (b :: r) = 1 := by
  match r with
  | [] => simp [wsSuffixRevLen, h]
  | [c] => simp [wsSuffixRevLen, h]
  | c :: d :: t => simp [wsSuffixRevLen, h]

theorem rustTrimStart_cons_ws {b : Nat} (t : List Nat) (h : isWsByte1 b = true) :
    rustTrimStart (b :: t) = rustTrimStart t := by
  show stripAux (b :: t).length wsPrefixLen (b :: t) = _
  simp only [List.length_cons, stripAux, wsPrefixLen_ws t h]
  simp only [Nat.one_ne_zero, if_false, List.drop_succ_cons, List.drop_zero]
  rfl

theorem rustTrimEndRev_cons_ws {b : Nat} (t : List Nat) (h : isWsByte1 b = true) :
    rustTrimEndRev (b :: t) = rustTrimEndRev t := by
  show stripAux (b :: t).length wsSuffixRevLen (b :: t) = _
  simp only [List.length_cons, stripAux, wsSuffixRevLen_ws t h]
  simp only [Nat.one_ne_zero, if_false, List.drop_succ_cons, List.drop_zero]
  rfl

/-- On an all-digits-or-sign line (bytes 43..57, covering `+`, `-` and the
digits), Rust `trim` is the identity. -/
theorem rustTrim_id {s : List Nat} (h : ∀ b ∈ s, 43 ≤ b ∧ b ≤ 57) : rustTrim s = s := by
  have h1 : rustTrimStart s = s := by
    cases s with
    | nil => rfl
    | cons b r =>
      have hb := h b (by simp)
      exact rustTrimStart_stop (wsPrefixLen_stop r hb.1 hb.2)
  rw [rustTrim, h1]
  have h2 : rustTrimEndRev s.reverse = s.reverse := by
    cases hs : s.reverse with
    | nil => rfl
    | cons b r =>
      have hb : b ∈ s := by
        have : b ∈ s.reverse := by rw [hs]; simp
        simpa using this
      have := h b hb
      exact rustTrimEndRev_stop (wsSuffixRevLen_stop r this.1 this.2)
  rw [h2, List.reverse_reverse]

/-! ### src/cmd.rs: command encoder -/

/-- One positional command token (`enum Arg` in src/cmd.rs); the lifetime
distinction between `Simple` (owned) and `Borrowed` bytes does not affect
behaviour, but both variants are kept. -/
inductive Arg
  | Simple (v : List Nat)
  | Cursor
  | Borrowed (v : List Nat)
  deriving DecidableEq

/-- Loop body translation of `countdigits` from src/cmd.rs: each iteration
adds 1..4 for a final chunk below 10000, then unconditionally adds 4 and
divides by 10000.  The fuel `v + 1` only makes the loop structural; it is
always enough because `v` strictly decreases. -/
def countdigitsAux : Nat → Nat → Nat
  | 0, _ => 0
  | fuel + 1, v =>
    if v = 0 then 0
    else
      (if v < 10 then 1 else if v < 100 then 2 else if v < 1000 then 3
       else if v < 10000 then 4 else 0)
      + 4 + countdigitsAux fuel (v / 10000)

/-- `countdigits` from src/cmd.rs, lines 23-34. -/
def countdigits (v : Nat) : Nat := countdigitsAux (v + 1) v

/-- `bulklen` from src/cmd.rs, line 37-39. -/
def bulklen (len : Nat) : Nat := 1 + countdigits len + 2 + len + 2

/-- The payload bytes an `Arg` contributes under the active cursor. -/
def argPayload (cursor : Nat) : Arg → List Nat
  | .Cursor => natToDecimal cursor
  | .Simple v => v
  | .Borrowed v => v

/-- The byte-length `encode_commands` uses for pre-sizing an `Arg`
(src/cmd.rs lines 44-48): note the cursor contributes `countdigits cursor`. -/
def argSizingLen (cursor : Nat) : Arg → Nat
  | .Cursor => countdigits cursor
  | .Simple v => v.length
  | .Borrowed v => v.length

/-- The capacity `encode_commands` precomputes (src/cmd.rs lines 42-49). -/
def totlen (args : List Arg) (cursor : Nat) : Nat :=
  1 + countdigits args.length + 2 + (args.map (fun a => bulklen (argSizingLen cursor a))).sum

/-- One serialized argument: `$`, decimal length, CRLF, payload, CRLF
(the closure `encode` in src/cmd.rs lines 57-65). -/
def bulkOf (item : List Nat) : List Nat :=
  36 :: natToDecimal item.length ++ 13 :: 10 :: item ++ [13, 10]

/-- `encode_commands` from src/cmd.rs lines 41-76: `*`, decimal argument
count, CRLF, then each argument in `bulkOf` form (the precomputed capacity
`totlen` only pre-sizes the vector and does not affect the bytes). -/
def encode_commands (args : List Arg) (cursor : Nat) : List Nat :=
  42 :: natToDecimal args.length ++ 13 :: 10 :: (args.map (fun a => bulkOf (argPayload cursor a))).flatten

/-- `struct Cmd` from src/cmd.rs (the `is_ignored` flag is carried but not
read by this core). -/
structure Cmd where
  args : List Arg
  cursor : Option Nat
  is_ignored : Bool
  deriving DecidableEq

def Cmd.new : Cmd := ⟨[], none, false⟩

/-- `Cmd::arg` appends every block produced by the argument conversion
(`to_redis_args`) as an `Arg::Simple`. -/
def Cmd.arg (c : Cmd) (blocks : List (List Nat)) : Cmd :=
  { c with args := c.args ++ blocks.map Arg.Simple }

/-- `Cmd::cursor_arg` records the cursor and appends a placeholder. -/
def Cmd.cursor_arg (c : Cmd) (cursor : Nat) : Cmd :=
  { c with cursor := some cursor, args := c.args ++ [Arg.Cursor] }

def Cmd.in_scan_mode (c : Cmd) : Bool := c.cursor.isSome

/-- `Cmd::get_packed_command`: serialize with the stored cursor, or 0. -/
def Cmd.get_packed_command (c : Cmd) : List Nat :=
  encode_commands c.args (c.cursor.getD 0)

/-- `Cmd::get_packed_command_with_cursor`: `None` unless in scan mode. -/
def Cmd.get_packed_command_with_cursor (c : Cmd) (cursor : Nat) : Option (List Nat) :=
  if !c.in_scan_mode then none else some (encode_commands c.args cursor)

/-- A builder call against a `Cmd` (the public mutating API of src/cmd.rs). -/
inductive BuildOp
  | argB (blocks : List (List Nat))
  | cursorB (cursor : Nat)
  deriving DecidableEq

def applyOp (c : Cmd) : BuildOp → Cmd
  | .argB blocks => c.arg blocks
  | .cursorB cursor => c.cursor_arg cursor

/-- A command built by a sequence of `arg` / `cursor_arg` calls on `Cmd::new`. -/
def buildCmd (ops : List BuildOp) : Cmd := ops.foldl applyOp Cmd.new

/-! ### Tokenizer for the command wire grammar (spec section 6)

Follows the spec grammar verbatim:
`command := "*" decimal(argc) CRLF argument*` and
`argument := "$" decimal(len) CRLF bytes(len) CRLF`. -/

/-- Read a decimal run followed by CRLF, per the grammar's `decimal` CRLF. -/
def readDecimal (input : List Nat) : Option (Nat × List Nat) :=
  let ds := input.takeWhile isDigitB
  if ds = [] then none
  else match input.dropWhile isDigitB with
    | c :: d :: r => if c = 13 ∧ d = 10 then some (digitsToNat ds, r) else none
    | _ => none

def tokenizeArgs : Nat → List Nat → Option (List (List Nat) × List Nat)
  | 0, input => some ([], input)
  | n + 1, input =>
    match input with
    | b :: r =>
      if b = 36 then
        (readDecimal r).bind (fun p =>
          if p.2.length < p.1 then none
          else match p.2.drop p.1 with
          | c :: d :: r3 =>
            if c = 13 ∧ d = 10 then
              (tokenizeArgs n r3).bind (fun q => some (p.2.take p.1 :: q.1, q.2))
            else none
          | _ => none)
      else none
    | [] => none

/-- Tokenize a full command per the grammar, requiring the buffer to be
consumed exactly. -/
def tokenizeCommand (input : List Nat) : Option (List (List Nat)) :=
  match input with
  | b :: r =>
    if b = 42 then
      (readDecimal r).bind (fun p =>
        (tokenizeArgs p.1 p.2).bind (fun q => if q.2 = [] then some q.1 else none))
    else none
  | [] => none

theorem takeWhile_all_append {p : Nat → Bool} {s : List Nat} {c : Nat} {t : List Nat}
    (hs : ∀ b ∈ s, p b = true) (hc : p c = false) :
    (s ++ c :: t).takeWhile p = s ∧ (s ++ c :: t).dropWhile p = c :: t := by
  induction s with
  | nil => simp [List.takeWhile, List.dropWhile, hc]
  | cons b r ih =>
    have hb : p b = true := hs b (by simp)
    have := ih (fun x hx => hs x (by simp [hx]))
    simp [List.takeWhile, List.dropWhile, hb, this.1, this.2]

theorem readDecimal_app (n : Nat) (rest : List Nat) :
    readDecimal (natToDecimal n ++ 13 :: 10 :: rest) = some (n, rest) := by
  have hdig : ∀ b ∈ natToDecimal n, isDigitB b = true := by
    intro b hb
    have := natToDecimal_digits n b hb
    simp [isDigitB]; omega
  have h13 : isDigitB 13 = false := by simp [isDigitB]
  have h := takeWhile_all_append (c := 13) (t := 10 :: rest) hdig h13
  simp only [readDecimal, h.1, h.2, natToDecimal_ne_nil n, if_false,
    digitsToNat_natToDecimal]
  simp

theorem tokenizeArgs_succ (n : Nat) (b : Nat) (r : List Nat) :
    tokenizeArgs (n + 1) (b :: r)
      = (if b = 36 then
          (readDecimal r).bind (fun p =>
            if p.2.length < p.1 then none
            else match p.2.drop p.1 with
            | c :: d :: r3 =>
              if c = 13 ∧ d = 10 then
                (tokenizeArgs n r3).bind (fun q => some (p.2.take p.1 :: q.1, q.2))
              else none
            | _ => none)
        else none) := rfl

theorem tokenizeCommand_cons (b : Nat) (r : List Nat) :
    tokenizeCommand (b :: r)
      = (if b = 42 then
          (readDecimal r).bind (fun p =>
            (tokenizeArgs p.1 p.2).bind (fun q => if q.2 = [] then some q.1 else none))
        else none) := rfl

theorem tokenizeArgs_flatten (blocks : List (List Nat)) (rest : List Nat) :
    tokenizeArgs blocks.length ((blocks.map bulkOf).flatten ++ rest) = some (blocks, rest) := by
  induction blocks generalizing rest with
  | nil => simp [tokenizeArgs]
  | cons b bs ih =>
    have hshape : ((b :: bs).map bulkOf).flatten ++ rest
        = 36 :: (natToDecimal b.length ++ 13 :: 10 :: (b ++ 13 :: 10 :: ((bs.map bulkOf).flatten ++ rest))) := by
      simp [bulkOf]
    rw [List.length_cons, hshape, tokenizeArgs_succ, if_pos rfl, readDecimal_app,
      Option.some_bind]
    have hlen : ¬ (b ++ 13 :: 10 :: ((bs.map bulkOf).flatten ++ rest)).length < b.length := by
      simp [List.length_append]
    simp only [hlen, if_false]
    rw [List.drop_left, List.take_left]
    simp [ih]

/-! ### Claim C1: countdigits and buffer pre-sizing (code bug)

The spec demands `countdigits v = length (decimal v)` with
`countdigits 0 = 1`.  The loop in src/cmd.rs instead falls through after
the final-chunk test and always adds 4, so `countdigits 0 = 0`,
`countdigits 5 = 5` and `countdigits 12345 = 9`, and the precomputed
capacity for the empty argument list is 3 while the serialized buffer
(`"*0\r\n"`) is 4 bytes long — the pre-sizing under-allocates there. -/

/-- Claim C1: the code's `countdigits` disagrees with the decimal width
(`countdigits 0 = 0`, not 1; `countdigits 5 = 5`, not 1; `countdigits
12345 = 9`, not 5), and the precomputed `totlen` for an empty argument
list is smaller than the buffer `encode_commands` actually produces. -/
theorem claim_C1_countdigits_bug :
    countdigits 0 = 0 ∧ countdigits 5 = 5 ∧ countdigits 12345 = 9
    ∧ (natToDecimal 0).length = 1 ∧ (natToDecimal 5).length = 1
    ∧ (natToDecimal 12345).length = 5
    ∧ totlen [] 0 = 3 ∧ (encode_commands [] 0).length = 4
    ∧ totlen [] 0 < (encode_commands [] 0).length :=
  ⟨rfl, rfl, rfl, rfl, rfl, rfl, rfl, rfl, by decide⟩

/-! ### Claim C2: serialization round-trip through the spec grammar -/

theorem buildCmd_args_foldl (blocks : List (List Nat)) :
    ∀ c : Cmd, (blocks.foldl (fun c b => Cmd.arg c [b]) c).args
      = c.args ++ blocks.map Arg.Simple := by
  induction blocks with
  | nil => intro c; simp
  | cons b bs ih =>
    intro c
    rw [List.foldl_cons, ih]
    simp [Cmd.arg]

theorem buildCmd_cursor_foldl (blocks : List (List Nat)) :
    ∀ c : Cmd, (blocks.foldl (fun c b => Cmd.arg c [b]) c).cursor = c.cursor := by
  induction blocks with
  | nil => intro c; rfl
  | cons b bs ih =>
    intro c
    rw [List.foldl_cons, ih]
    rfl

/-- Claim C2: a command built by appending blocks `a1..an` one at a time
serializes to exactly `*`, decimal `n`, CRLF, then each block in `$len
CRLF bytes CRLF` form; tokenizing that output by the spec grammar
recovers exactly the `n` blocks, byte-identically. -/
theorem claim_C2_roundtrip (blocks : List (List Nat)) :
    (blocks.foldl (fun c b => Cmd.arg c [b]) Cmd.new).get_packed_command
      = 42 :: natToDecimal blocks.length ++ 13 :: 10 :: (blocks.map bulkOf).flatten
    ∧ tokenizeCommand ((blocks.foldl (fun c b => Cmd.arg c [b]) Cmd.new).get_packed_command)
      = some blocks := by
  have hargs := buildCmd_args_foldl blocks Cmd.new
  have hcur := buildCmd_cursor_foldl blocks Cmd.new
  have henc : (blocks.foldl (fun c b => Cmd.arg c [b]) Cmd.new).get_packed_command
      = 42 :: natToDecimal blocks.length ++ 13 :: 10 :: (blocks.map bulkOf).flatten := by
    rw [Cmd.get_packed_command, hargs, hcur]
    simp only [Cmd.new, List.nil_append, encode_commands, List.map_map, List.length_map]
    rfl
  refine ⟨henc, ?_⟩
  rw [henc]
  simp only [List.cons_append]
  rw [tokenizeCommand_cons, if_pos rfl]
  have : natToDecimal blocks.length ++ 13 :: 10 :: (blocks.map bulkOf).flatten
      = natToDecimal blocks.length ++ 13 :: 10 :: ((blocks.map bulkOf).flatten ++ []) := by simp
  rw [this, readDecimal_app]
  have h2 := tokenizeArgs_flatten blocks []
  rw [List.append_nil] at h2
  simp [h2]

/-! ### Claim C7: scan-cursor re-serialization -/

theorem buildCmd_scan_inv (ops : List BuildOp) :
    ∀ c : Cmd, (c.cursor.isSome = true ↔ Arg.Cursor ∈ c.args) →
      ((ops.foldl applyOp c).cursor.isSome = true ↔ Arg.Cursor ∈ (ops.foldl applyOp c).args) := by
  induction ops with
  | nil => intro c h; exact h
  | cons op rest ih =>
    intro c h
    rw [List.foldl_cons]
    apply ih
    cases op with
    | argB blocks =>
      simp only [applyOp, Cmd.arg, List.mem_append, List.mem_map]
      constructor
      · intro hs
        exact Or.inl (h.mp hs)
      · intro hs
        rcases hs with hs | ⟨b, _, hb⟩
        · exact h.mpr hs
        · exact absurd hb (by simp)
    | cursorB cur =>
      simp [applyOp, Cmd.cursor_arg]

theorem encode_commands_cursor (pre post : List (List Nat)) (c : Nat) :
    encode_commands (pre.map Arg.Simple ++ Arg.Cursor :: post.map Arg.Simple) c
      = 42 :: natToDecimal (pre.length + 1 + post.length) ++ 13 :: 10 ::
          ((pre.map bulkOf).flatten ++ (bulkOf (natToDecimal c) :: post.map bulkOf).flatten) := by
  have hlen : (pre.map Arg.Simple ++ Arg.Cursor :: post.map Arg.Simple).length
      = pre.length + 1 + post.length := by
    simp; omega
  have hmap : (pre.map Arg.Simple ++ Arg.Cursor :: post.map Arg.Simple).map
        (fun a => bulkOf (argPayload c a))
      = pre.map bulkOf ++ bulkOf (natToDecimal c) :: post.map bulkOf := by
    rw [List.map_append, List.map_cons, List.map_map, List.map_map]
    rfl
  rw [encode_commands, hmap, hlen, List.flatten_append]

/-- Claim C7: re-serializing a command whose argument list holds a cursor
placeholder with a caller-supplied cursor `c` emits the decimal text of
`c` in bulk form (its length header recomputed from that text) at the
placeholder position, with all other arguments serialized unchanged;
`get_packed_command_with_cursor` yields `None` on a command built without
a cursor placeholder; and for every built command `in_scan_mode` is true
iff a cursor placeholder is present in its argument list. -/
theorem claim_C7_cursor :
    (∀ (pre post : List (List Nat)) (cur0 c : Nat),
      (Cmd.mk (pre.map Arg.Simple ++ Arg.Cursor :: post.map Arg.Simple) (some cur0)
          false).get_packed_command_with_cursor c
        = some (42 :: natToDecimal (pre.length + 1 + post.length) ++ 13 :: 10 ::
            ((pre.map bulkOf).flatten ++ (bulkOf (natToDecimal c) :: post.map bulkOf).flatten)))
    ∧ (∀ ops c, Arg.Cursor ∉ (buildCmd ops).args →
        (buildCmd ops).get_packed_command_with_cursor c = none)
    ∧ (∀ ops, (buildCmd ops).in_scan_mode = true ↔ Arg.Cursor ∈ (buildCmd ops).args) := by
  have hinv : ∀ ops, ((buildCmd ops).cursor.isSome = true ↔ Arg.Cursor ∈ (buildCmd ops).args) := by
    intro ops
    exact buildCmd_scan_inv ops Cmd.new (by simp [Cmd.new])
  refine ⟨?_, ?_, ?_⟩
  · intro pre post cur0 c
    rw [Cmd.get_packed_command_with_cursor]
    simp only [Cmd.in_scan_mode, Option.isSome_some, Bool.not_true, Bool.false_eq_true, if_false]
    rw [encode_commands_cursor]
  · intro ops c h
    have hs : (buildCmd ops).cursor.isSome = false := by
      cases hh : (buildCmd ops).cursor.isSome with
      | false => rfl
      | true => exact absurd ((hinv ops).mp hh) h
    rw [Cmd.get_packed_command_with_cursor, Cmd.in_scan_mode, hs]
    rfl
  · intro ops
    exact hinv ops

/-- Witness for claim C7 at concrete inputs: a command built with a single
plain argument and no cursor placeholder re-serializes to `None`, and a
command built with `cursor_arg` is in scan mode. -/
theorem claim_C7_cursor_witness :
    (buildCmd [BuildOp.argB [[71, 69, 84]]]).get_packed_command_with_cursor 42 = none
    ∧ ((buildCmd [BuildOp.cursorB 0]).in_scan_mode = true
        ↔ Arg.Cursor ∈ (buildCmd [BuildOp.cursorB 0]).args) :=
  ⟨claim_C7_cursor.2.1 [BuildOp.argB [[71, 69, 84]]] 42 (by decide),
   claim_C7_cursor.2.2 [BuildOp.cursorB 0]⟩

/-! ### src/types.rs: the `ToRedisArgs` conversion capability

Each Rust `impl` becomes a set of plain definitions; the trait's default
method bodies (`make_arg_vec`, `is_single_vec_arg`, src/types.rs lines
110-120) are the `default`-prefixed functions, parameterized by the
element type's own methods. -/

/-- Trait-default `make_arg_vec`: concatenate every element's blocks. -/
def defaultMakeArgVec {α : Type} (toArgs : α → List (List Nat)) (items : List α) :
    List (List Nat) :=
  (items.map toArgs).flatten

/-- Trait-default `is_single_vec_arg`: a one-element slice whose element is
itself a single argument. -/
def defaultIsSingleVecArg {α : Type} (isSingle : α → Bool) (items : List α) : Bool :=
  match items with
  | [x] => isSingle x
  | _ => false

namespace u8

/-- `impl ToRedisArgs for u8`, `to_redis_args`: the decimal text of the
byte (src/types.rs lines 139-142). -/
def to_redis_args (v : Nat) : List (List Nat) := [natToDecimal v]

/-- `impl ToRedisArgs for u8`, `make_arg_vec`: one block holding the slice
bytes verbatim (src/types.rs lines 144-146). -/
def make_arg_vec (items : List Nat) : List (List Nat) := [items]

/-- `impl ToRedisArgs for u8`, `is_single_vec_arg`: always true
(src/types.rs lines 148-150). -/
def is_single_vec_arg (_items : List Nat) : Bool := true

end u8

namespace VecT

/-- `impl ToRedisArgs for Vec<T>` with a generic element type `T`, whose
slice-level behaviour is the trait default. -/
def to_redis_args {α : Type} (toArgs : α → List (List Nat)) (self : List α) :
    List (List Nat) :=
  defaultMakeArgVec toArgs self

def is_single_arg {α : Type} (isSingle : α → Bool) (self : List α) : Bool :=
  defaultIsSingleVecArg isSingle self

end VecT

namespace VecU8

/-- `impl ToRedisArgs for Vec<T>` instantiated at `T = u8`, where the
`u8` impl overrides the slice-level methods. -/
def to_redis_args (self : List Nat) : List (List Nat) := u8.make_arg_vec self

def is_single_arg (self : List Nat) : Bool := u8.is_single_vec_arg self

end VecU8

/-! ### Claim C4: converting a single u8 (corrected) -/

/-- Counterexample to claim C4 as stated: converting the single `u8` value
42 yields the block `"42"` (bytes 52, 50), not the verbatim byte 42. -/
theorem claim_C4_cex : u8.to_redis_args 42 = [[52, 50]]
    ∧ ([[52, 50]] : List (List Nat)) ≠ [[42]] :=
  ⟨rfl, by decide⟩

/-- Claim C4 as amended: a single `u8` value converts to one block holding
its decimal text, which is never the verbatim single byte; the verbatim
special-casing lives at the sequence level, where `make_arg_vec` emits
one block with the bytes unchanged and `is_single_vec_arg` is always
true. -/
theorem claim_C4_u8_args (v : Nat) :
    u8.to_redis_args v = [natToDecimal v]
    ∧ natToDecimal v ≠ [v]
    ∧ u8.make_arg_vec [v] = [[v]]
    ∧ u8.is_single_vec_arg [v] = true := by
  refine ⟨rfl, ?_, rfl, rfl⟩
  by_cases h : v < 10
  · rw [natToDecimal_eq]
    simp only [h, if_true]
    intro he
    have := List.head_eq_of_cons_eq he
    omega
  · intro he
    have h2 := natToDecimal_length_ge_two (by omega : 10 ≤ v)
    rw [he] at h2
    simp at h2

/-! ### Claim C5: zero-length sequences (corrected) -/

/-- Counterexample to claim C5 as stated: for element type `u8`, the empty
sequence converts to one (empty) block, not zero blocks, and
`is_single_vec_arg` is true, not false. -/
theorem claim_C5_cex :
    VecU8.to_redis_args [] = [[]]
    ∧ ([[]] : List (List Nat)).length = 1
    ∧ VecU8.is_single_arg [] = true :=
  ⟨rfl, rfl, rfl⟩

/-- Claim C5 as amended: for every element type converting through the
trait-default sequence methods (every `T` except `u8`), a zero-length
sequence converts to zero blocks and is not a single argument; for
element type `u8` the empty sequence converts to one empty block and is
treated as a single argument. -/
theorem claim_C5_empty_seq (α : Type) (toArgs : α → List (List Nat)) (isSingle : α → Bool) :
    VecT.to_redis_args toArgs ([] : List α) = []
    ∧ VecT.is_single_arg isSingle ([] : List α) = false
    ∧ VecU8.to_redis_args ([] : List Nat) = [[]]
    ∧ VecU8.is_single_arg ([] : List Nat) = true :=
  ⟨rfl, rfl, rfl, rfl⟩

/-! ### src/types.rs: the value/error data model -/

/-- `enum ErrorKind` from src/types.rs (the `ExtensionError` code is a
string, modelled as bytes). -/
inductive ErrorKind
  | ResponseError
  | AuthenticationFailed
  | TypeError
  | ExecAbortError
  | BusyLoadingError
  | NoScriptError
  | ExtensionError (code : List Nat)
  | IoError
  deriving DecidableEq

/-- `struct RedisError` from src/types.rs: kind, static description and
optional detail string. -/
structure RedisError where
  kind : ErrorKind
  desc : String
  detail : Option (List Nat)
  deriving DecidableEq

/-- `enum Value` from src/types.rs. -/
inductive Value
  | Nil
  | Int (i : Int)
  | Data (bs : List Nat)
  | Bulk (items : List Value)
  | Status (s : List Nat)
  | Okay

/-! ### src/parser.rs: the streaming decoder

The byte source (`T: Read` wrapped by `Parser`) is modelled as the list of
remaining bytes; each helper returns the value it read plus the rest of
the stream, or the `RedisError` the code raises at that point. -/

/-- `Parser::read_byte` (src/parser.rs lines 85-93). -/
def read_byte : List Nat → Except RedisError (Nat × List Nat)
  | [] => .error ⟨.ResponseError, "Could not read enough bytes", none⟩
  | b :: rest => .ok (b, rest)

/-- `Parser::expect_char` (src/parser.rs lines 156-164). -/
def expect_char (expected : Nat) : List Nat → Except RedisError (List Nat)
  | [] => .error ⟨.ResponseError, "Could not read enough bytes", none⟩
  | b :: rest =>
    if b = expected then .ok rest
    else .error ⟨.ResponseError, "Invalid byte in Response", none⟩

/-- `Parser::read_line` (src/parser.rs lines 113-130): bytes up to a `\r`
(which must be followed by `\n`) or a bare `\n`, delimiter excluded. -/
def read_line : List Nat → Except RedisError (List Nat × List Nat)
  | [] => .error ⟨.ResponseError, "Could not read enough bytes", none⟩
  | b :: rest =>
    if b = 13 then
      match expect_char 10 rest with
      | .ok rest2 => .ok ([], rest2)
      | .error e => .error e
    else if b = 10 then .ok ([], rest)
    else
      match read_line rest with
      | .ok (l, r) => .ok (b :: l, r)
      | .error e => .error e

/-- `Parser::read_string_line` (src/parser.rs lines 95-100): the line bytes
must be valid UTF-8 (`String::from_utf8`); the resulting string is kept in
its byte representation. -/
def read_string_line (input : List Nat) : Except RedisError (List Nat × List Nat) :=
  match read_line input with
  | .error e => .error e
  | .ok (l, rest) =>
    if utf8Valid l then .ok (l, rest)
    else .error ⟨.TypeError, "Invalid UTF-8", some (asciiBytes "invalid utf-8")⟩

/-- `Parser::read_int_value` (src/parser.rs lines 102-111): trim the line
and parse it as `i64`. -/
def read_int_value (input : List Nat) : Except RedisError (Int × List Nat) :=
  match read_string_line input with
  | .error e => .error e
  | .ok (line, rest) =>
    match parseI64 (rustTrim line) with
    | some v => .ok (v, rest)
    | none => .error ⟨.ResponseError, "Expected integer, got garbage", none⟩

/-- `Parser::read` (src/parser.rs lines 132-154): read exactly `size`
bytes; an exhausted source fails (with the code's misspelled message). -/
def readN (size : Nat) (input : List Nat) : Except RedisError (List Nat × List Nat) :=
  if input.length < size then
    .error ⟨.ResponseError, "Could not read enought bytes", none⟩
  else .ok (input.take size, input.drop size)

def OKbytes : List Nat := asciiBytes "OK"

/-- `Parser::parse_status_value` (src/parser.rs lines 32-39). -/
def parse_status_value (input : List Nat) : Except RedisError (Value × List Nat) :=
  match read_string_line input with
  | .error e => .error e
  | .ok (line, rest) =>
    if line = OKbytes then .ok (.Okay, rest) else .ok (.Status line, rest)

/-- `Parser::parse_int_value` (src/parser.rs lines 28-30). -/
def parse_int_value (input : List Nat) : Except RedisError (Value × List Nat) :=
  match read_int_value input with
  | .error e => .error e
  | .ok (v, rest) => .ok (.Int v, rest)

/-- `Parser::parse_data_value` (src/parser.rs lines 41-51): negative length
yields `Nil` with nothing further consumed; otherwise the payload plus an
exact CRLF. -/
def parse_data_value (input : List Nat) : Except RedisError (Value × List Nat) :=
  match read_int_value input with
  | .error e => .error e
  | .ok (length, rest) =>
    if length < 0 then .ok (.Nil, rest)
    else
      match readN length.toNat rest with
      | .error e => .error e
      | .ok (rv, rest2) =>
        match expect_char 13 rest2 with
        | .error e => .error e
        | .ok rest3 =>
          match expect_char 10 rest3 with
          | .error e => .error e
          | .ok rest4 => .ok (.Data rv, rest4)

/-- `line.splitn(2, ' ')` from `Parser::parse_error`: the part before the
first space, and the remainder after it when a space exists. -/
def splitn2 : List Nat → List Nat × Option (List Nat)
  | [] => ([], none)
  | b :: r =>
    if b = 32 then ([], some r)
    else
      let p := splitn2 r
      (b :: p.1, p.2)

def serverErrDesc : String := "An error was signaled by the server"

/-- The `ErrorKind` mapping in `Parser::parse_error` (src/parser.rs lines
71-77). -/
def kindOfCode (code : List Nat) : ErrorKind :=
  if code = asciiBytes "ERR" then .ResponseError
  else if code = asciiBytes "EXECABORT" then .ExecAbortError
  else if code = asciiBytes "LOADING" then .BusyLoadingError
  else if code = asciiBytes "NOSCRIPT" then .NoScriptError
  else .ExtensionError code

/-- `Parser::parse_error` (src/parser.rs lines 67-82): always an `Err`. -/
def parse_error (input : List Nat) : Except RedisError (Value × List Nat) :=
  match read_string_line input with
  | .error e => .error e
  | .ok (line, _rest) =>
    let p := splitn2 line
    match p.2 with
    | some detail => .error ⟨kindOfCode p.1, serverErrDesc, some detail⟩
    | none => .error ⟨kindOfCode p.1, serverErrDesc, none⟩

/-- The element loop of `Parser::parse_bulk_value` (src/parser.rs lines
58-62), parameterized by the value parser it calls back into. -/
def parse_n (p : List Nat → Except RedisError (Value × List Nat)) :
    Nat → List Nat → Except RedisError (List Value × List Nat)
  | 0, input => .ok ([], input)
  | n + 1, input =>
    match p input with
    | .error e => .error e
    | .ok (v, rest) =>
      match parse_n p n rest with
      | .error e => .error e
      | .ok (vs, r) => .ok (v :: vs, r)

/-- `Parser::parse_bulk_value` (src/parser.rs lines 53-65), with the
recursive calls to `parse_value` supplied as `p`. -/
def parse_bulk_with (p : List Nat → Except RedisError (Value × List Nat))
    (input : List Nat) : Except RedisError (Value × List Nat) :=
  match read_int_value input with
  | .error e => .error e
  | .ok (length, rest) =>
    if length < 0 then .ok (.Nil, rest)
    else
      match parse_n p length.toNat rest with
      | .error e => .error e
      | .ok (vs, r) => .ok (.Bulk vs, r)

/-- `Parser::parse_value` (src/parser.rs lines 16-26): dispatch on the tag
byte.  The fuel argument is a modelling artifact that makes the nested
recursion structural; it only bounds the recursion depth, and since every
recursion level first consumes at least one byte of input, the
`input.length + 1` fuel used by `parse_value` below can never run out. -/
def parse_value_f : Nat → List Nat → Except RedisError (Value × List Nat)
  | 0, _ => .error ⟨.ResponseError, "Invalid response when parsing value", none⟩
  | fuel + 1, input =>
    match read_byte input with
    | .error e => .error e
    | .ok (b, rest) =>
      if b = 43 then parse_status_value rest
      else if b = 45 then parse_error rest
      else if b = 58 then parse_int_value rest
      else if b = 36 then parse_data_value rest
      else if b = 42 then parse_bulk_with (parse_value_f fuel) rest
      else .error ⟨.ResponseError, "Invalid response when parsing value", none⟩

/-- Decode one value from a byte stream (`Parser::parse_value`, or
equivalently `parse_redis_value` on an in-memory buffer), returning the
value and the unread rest of the stream. -/
def parse_value (input : List Nat) : Except RedisError (Value × List Nat) :=
  parse_value_f (input.length + 1) input

/-- One-step unfolding of `parse_value` on a nonempty stream: the five-way
tag dispatch of `Parser::parse_value`. -/
theorem parse_value_cons (b : Nat) (bs : List Nat) :
    parse_value (b :: bs)
      = (if b = 43 then parse_status_value bs
         else if b = 45 then parse_error bs
         else if b = 58 then parse_int_value bs
         else if b = 36 then parse_data_value bs
         else if b = 42 then parse_bulk_with (parse_value_f (bs.length + 1)) bs
         else .error ⟨.ResponseError, "Invalid response when parsing value", none⟩) := rfl

/-! ### The reply wire grammar (spec section 4.4)

`encodeValue` produces the exact bytes of a reply under the five tags:
status `+line CRLF` (with `Okay` for the line `OK`), integer
`:decimal CRLF`, bulk string `$len CRLF bytes CRLF` (`$-1 CRLF` for
`Nil`), and array `*count CRLF element*`.  `WfValue` says which values
the grammar can express: `i64`-ranged integers and lengths, and status
lines that are CRLF-free valid-UTF-8 text other than `OK`. -/

mutual

def encodeValue : Value → List Nat
  | .Nil => [36, 45, 49, 13, 10]
  | .Int i => 58 :: (intToDecimal i ++ [13, 10])
  | .Data bs => 36 :: (natToDecimal bs.length ++ [13, 10] ++ bs ++ [13, 10])
  | .Bulk items => 42 :: (natToDecimal items.length ++ [13, 10] ++ encodeList items)
  | .Status s => 43 :: (s ++ [13, 10])
  | .Okay => [43, 79, 75, 13, 10]

def encodeList : List Value → List Nat
  | [] => []
  | v :: vs => encodeValue v ++ encodeList vs

end

/-- Well-formed replies: exactly those expressible in the reply grammar. -/
inductive WfValue : Value → Prop
  | nil : WfValue .Nil
  | int (i : Int) : -(I64Bound : Int) ≤ i → i < I64Bound → WfValue (.Int i)
  | data (bs : List Nat) : bs.length < I64Bound → WfValue (.Data bs)
  | bulk (items : List Value) : items.length < I64Bound →
      (∀ v ∈ items, WfValue v) → WfValue (.Bulk items)
  | status (s : List Nat) : utf8Valid s = true → (∀ b ∈ s, b ≠ 13 ∧ b ≠ 10) →
      s ≠ OKbytes → WfValue (.Status s)
  | okay : WfValue .Okay

/-! ### Line-level round-trip lemmas -/

theorem read_line_app {s : List Nat} (rest : List Nat)
    (h : ∀ b ∈ s, b ≠ 13 ∧ b ≠ 10) :
    read_line (s ++ 13 :: 10 :: rest) = .ok (s, rest) := by
  induction s with
  | nil => simp [read_line, expect_char]
  | cons b r ih =>
    have hb := h b (by simp)
    rw [List.cons_append, read_line.eq_def]
    simp only [if_neg hb.1, if_neg hb.2]
    rw [ih (fun x hx => h x (by simp [hx]))]

theorem read_string_line_app {s : List Nat} (rest : List Nat)
    (hc : ∀ b ∈ s, b ≠ 13 ∧ b ≠ 10) (hv : utf8Valid s = true) :
    read_string_line (s ++ 13 :: 10 :: rest) = .ok (s, rest) := by
  rw [read_string_line, read_line_app rest hc]
  simp [hv]

theorem read_int_value_app {s : List Nat} {v : Int} (rest : List Nat)
    (hc : ∀ b ∈ s, b ≠ 13 ∧ b ≠ 10) (hv : utf8Valid s = true)
    (hp : parseI64 (rustTrim s) = some v) :
    read_int_value (s ++ 13 :: 10 :: rest) = .ok (v, rest) := by
  rw [read_int_value, read_string_line_app rest hc hv]
  simp [hp]

theorem read_int_value_decimal (n : Nat) (rest : List Nat) (hn : n ≤ I64Bound - 1) :
    read_int_value (natToDecimal n ++ 13 :: 10 :: rest) = .ok ((n : Int), rest) := by
  have hdig := natToDecimal_digits n
  refine read_int_value_app rest ?_ ?_ ?_
  · intro b hb
    have := hdig b hb
    omega
  · exact utf8Valid_ascii (fun b hb => by have := hdig b hb; omega)
  · rw [rustTrim_id (fun b hb => by have := hdig b hb; omega)]
    rw [parseI64_digits (natToDecimal_ne_nil n) hdig
      (by rw [digitsToNat_natToDecimal]; exact hn)]
    rw [digitsToNat_natToDecimal]

theorem read_int_value_intDec (i : Int) (rest : List Nat)
    (h₁ : -(I64Bound : Int) ≤ i) (h₂ : i < I64Bound) :
    read_int_value (intToDecimal i ++ 13 :: 10 :: rest) = .ok (i, rest) := by
  have hall : ∀ b ∈ intToDecimal i, 43 ≤ b ∧ b ≤ 57 := by
    intro b hb
    rw [intToDecimal] at hb
    by_cases hneg : i < 0
    · simp only [hneg, if_true, List.mem_cons] at hb
      rcases hb with rfl | hb
      · omega
      · have := natToDecimal_digits _ b hb
        omega
    · simp only [hneg, if_false] at hb
      have := natToDecimal_digits _ b hb
      omega
  refine read_int_value_app rest ?_ ?_ ?_
  · intro b hb
    have := hall b hb
    omega
  · exact utf8Valid_ascii (fun b hb => by have := hall b hb; omega)
  · rw [rustTrim_id hall, parseI64_intToDecimal h₁ h₂]

/-! ### Decoder totality on the reply grammar -/

theorem encodeValue_length_pos (v : Value) : 1 ≤ (encodeValue v).length := by
  cases v <;> simp [encodeValue]

theorem encodeList_mem_le (items : List Value) :
    ∀ v ∈ items, (encodeValue v).length ≤ (encodeList items).length := by
  induction items with
  | nil => simp
  | cons u us ih =>
    intro v hv
    rw [encodeList, List.length_append]
    rcases List.mem_cons.mp hv with rfl | hv
    · omega
    · have := ih v hv
      omega

theorem parse_n_encode (fuel : Nat)
    (ih : ∀ v rest, WfValue v → (encodeValue v).length ≤ fuel →
      parse_value_f fuel (encodeValue v ++ rest) = .ok (v, rest)) :
    ∀ items rest, (∀ v ∈ items, WfValue v) →
      (∀ v ∈ items, (encodeValue v).length ≤ fuel) →
      parse_n (parse_value_f fuel) items.length (encodeList items ++ rest)
        = .ok (items, rest) := by
  intro items
  induction items with
  | nil =>
    intro rest _ _
    simp [encodeList, parse_n]
  | cons v vs ihl =>
    intro rest hwf hle
    rw [List.length_cons, encodeList, List.append_assoc]
    simp only [parse_n]
    rw [ih v _ (hwf v (by simp)) (hle v (by simp))]
    dsimp only
    rw [ihl _ (fun u hu => hwf u (by simp [hu])) (fun u hu => hle u (by simp [hu]))]

theorem parse_encode_f : ∀ fuel v rest, WfValue v → (encodeValue v).length ≤ fuel →
    parse_value_f fuel (encodeValue v ++ rest) = .ok (v, rest) := by
  intro fuel
  induction fuel with
  | zero =>
    intro v rest _ hlen
    have := encodeValue_length_pos v
    omega
  | succ fuel ih =>
    intro v rest hwf hlen
    cases hwf with
    | nil =>
      show parse_value_f (fuel + 1) ([36, 45, 49, 13, 10] ++ rest) = _
      simp only [List.cons_append, List.nil_append, parse_value_f, read_byte]
      norm_num
      have h := read_int_value_intDec (-1) rest (by norm_num [I64Bound]) (by norm_num [I64Bound])
      have he : intToDecimal (-1) = [45, 49] := rfl
      rw [he] at h
      simp only [List.cons_append, List.nil_append] at h
      rw [parse_data_value, h]
      norm_num
    | okay =>
      show parse_value_f (fuel + 1) ([43, 79, 75, 13, 10] ++ rest) = _
      simp only [List.cons_append, List.nil_append, parse_value_f, read_byte]
      norm_num
      have h := read_string_line_app (s := [79, 75]) rest (by decide) (by decide)
      simp only [List.cons_append, List.nil_append] at h
      rw [parse_status_value, h]
      have : ([79, 75] : List Nat) = OKbytes := rfl
      simp [this]
    | status s hv hc hok =>
      show parse_value_f (fuel + 1) ((43 :: (s ++ [13, 10])) ++ rest) = _
      simp only [List.cons_append, List.append_assoc, List.cons_append, List.nil_append,
        parse_value_f, read_byte]
      norm_num
      rw [parse_status_value, read_string_line_app rest hc hv]
      simp [hok]
    | int i h₁ h₂ =>
      show parse_value_f (fuel + 1) ((58 :: (intToDecimal i ++ [13, 10])) ++ rest) = _
      simp only [List.cons_append, List.append_assoc, List.nil_append,
        parse_value_f, read_byte]
      norm_num
      rw [parse_int_value, read_int_value_intDec i rest h₁ h₂]
    | data bs hlenb =>
      show parse_value_f (fuel + 1)
          ((36 :: (natToDecimal bs.length ++ [13, 10] ++ bs ++ [13, 10])) ++ rest) = _
      simp only [List.cons_append, List.append_assoc, List.nil_append,
        parse_value_f, read_byte]
      norm_num
      have h := read_int_value_decimal bs.length (bs ++ 13 :: 10 :: rest) (by omega)
      rw [parse_data_value, h]
      have hnn : ¬ ((bs.length : Nat) : Int) < 0 := by omega
      simp only [hnn, if_false]
      have htn : (((bs.length : Nat) : Int)).toNat = bs.length := by omega
      rw [htn, readN]
      have hge : ¬ (bs ++ 13 :: 10 :: rest).length < bs.length := by
        simp [List.length_append]
      simp only [hge, if_false]
      rw [List.take_left, List.drop_left]
      simp [expect_char]
    | bulk items hleni hmem =>
      show parse_value_f (fuel + 1)
          ((42 :: (natToDecimal items.length ++ [13, 10] ++ encodeList items)) ++ rest) = _
      simp only [List.cons_append, List.append_assoc, List.nil_append,
        parse_value_f, read_byte]
      norm_num
      have h := read_int_value_decimal items.length (encodeList items ++ rest) (by omega)
      rw [parse_bulk_with, h]
      have hnn : ¬ ((items.length : Nat) : Int) < 0 := by omega
      simp only [hnn, if_false]
      have htn : (((items.length : Nat) : Int)).toNat = items.length := by omega
      rw [htn]
      have hlist := parse_n_encode fuel ih items rest hmem ?_
      · rw [hlist]
      · intro v hv
        have h1 := encodeList_mem_le items v hv
        have h2 : 4 + (encodeList items).length ≤ (encodeValue (Value.Bulk items)).length := by
          rw [encodeValue]
          simp only [List.length_cons, List.length_append]
          have := natToDecimal_ne_nil items.length
          have : 1 ≤ (natToDecimal items.length).length := by
            cases hnd : natToDecimal items.length with
            | nil => exact absurd hnd this
            | cons a l => simp
          simp
          omega
        omega

/-- Claim C3: decoding the exact bytes of any reply expressible in the
wire grammar yields precisely that value (matching variant, byte-identical
integer, bulk and status payloads, structurally identical arrays) and
consumes exactly its bytes; any first tag byte other than the five tags
fails with `ResponseError` ("Invalid response when parsing value").  The
fifth tag `-` never yields a value; its always-failing behaviour is the
subject of `claim_C9_error_classification`. -/
theorem parse_value_encode {v : Value} (rest : List Nat) (hwf : WfValue v) :
    parse_value (encodeValue v ++ rest) = .ok (v, rest) := by
  rw [parse_value]
  apply parse_encode_f _ v rest hwf
  rw [List.length_append]
  omega

theorem claim_C3_decoder :
    (∀ v rest, WfValue v → parse_value (encodeValue v ++ rest) = .ok (v, rest))
    ∧ (∀ b bs, b ≠ 43 → b ≠ 45 → b ≠ 58 → b ≠ 36 → b ≠ 42 →
        parse_value (b :: bs)
          = .error ⟨.ResponseError, "Invalid response when parsing value", none⟩) := by
  constructor
  · intro v rest hwf
    exact parse_value_encode rest hwf
  · intro b bs h43 h45 h58 h36 h42
    rw [parse_value_cons]
    simp [h43, h45, h58, h36, h42]

/-- Witness for claim C3 at a concrete nested reply exercising every
variant, and at a concrete invalid tag byte. -/
theorem claim_C3_decoder_witness :
    parse_value (encodeValue (Value.Bulk [Value.Int (-7), Value.Data [102, 111, 111],
        Value.Status [80, 79, 78, 71], Value.Okay, Value.Nil]) ++ [])
      = .ok (Value.Bulk [Value.Int (-7), Value.Data [102, 111, 111],
          Value.Status [80, 79, 78, 71], Value.Okay, Value.Nil], [])
    ∧ parse_value (97 :: [])
      = .error ⟨.ResponseError, "Invalid response when parsing value", none⟩ := by
  constructor
  · apply claim_C3_decoder.1
    refine WfValue.bulk _ (by norm_num [I64Bound]) ?_
    intro v hv
    simp only [List.mem_cons, List.not_mem_nil, or_false] at hv
    rcases hv with rfl | rfl | rfl | rfl | rfl
    · exact WfValue.int _ (by norm_num [I64Bound]) (by norm_num [I64Bound])
    · exact WfValue.data _ (by norm_num [I64Bound])
    · exact WfValue.status _ (by decide) (by decide) (by decide)
    · exact WfValue.okay
    · exact WfValue.nil
  · exact claim_C3_decoder.2 97 [] (by decide) (by decide) (by decide) (by decide) (by decide)

/-! ### Claim C6: Nil handling -/

/-- Claim C6: `"$-1\r\n"` and `"*-1\r\n"` both decode to `Nil` consuming
exactly the negative length line (whatever follows it is left unread),
and `"*0\r\n"` decodes to the empty `Bulk`, not `Nil`. -/
theorem claim_C6_nil_handling (rest : List Nat) :
    parse_value ([36, 45, 49, 13, 10] ++ rest) = .ok (Value.Nil, rest)
    ∧ parse_value ([42, 45, 49, 13, 10] ++ rest) = .ok (Value.Nil, rest)
    ∧ parse_value [42, 48, 13, 10] = .ok (Value.Bulk [], []) := by
  refine ⟨?_, ?_, ?_⟩
  · have h := parse_value_encode (v := Value.Nil) rest WfValue.nil
    rw [show encodeValue Value.Nil = [36, 45, 49, 13, 10] from by rw [encodeValue]] at h
    exact h
  · show parse_value (42 :: (45 :: 49 :: 13 :: 10 :: rest)) = _
    rw [parse_value_cons]
    norm_num
    have h := read_int_value_intDec (-1) rest (by norm_num [I64Bound]) (by norm_num [I64Bound])
    rw [show intToDecimal (-1) = [45, 49] from rfl] at h
    simp only [List.cons_append, List.nil_append] at h
    rw [parse_bulk_with, h]
    dsimp only
    norm_num
  · have hwf : WfValue (Value.Bulk []) := WfValue.bulk [] (by norm_num [I64Bound]) (by simp)
    have h := parse_value_encode (v := Value.Bulk []) [] hwf
    rw [show encodeValue (Value.Bulk []) = [42, 48, 13, 10] from by
      rw [encodeValue, encodeList]; rfl] at h
    simpa using h

/-! ### Claim C8: status specialization -/

/-- Claim C8: a status reply `+line CRLF` decodes to `Okay` exactly when
the line is `OK`, and to `Status line` for every other text line. -/
theorem claim_C8_status (line rest : List Nat) (hv : utf8Valid line = true)
    (hc : ∀ b ∈ line, b ≠ 13 ∧ b ≠ 10) :
    parse_value (43 :: (line ++ 13 :: 10 :: rest))
      = .ok (if line = OKbytes then Value.Okay else Value.Status line, rest) := by
  rw [parse_value_cons]
  norm_num
  rw [parse_status_value, read_string_line_app rest hc hv]
  by_cases h : line = OKbytes <;> simp [h]

/-- Witness for claim C8: `"+PONG\r\n"` decodes to `Status "PONG"` and
`"+OK\r\n"` to `Okay`. -/
theorem claim_C8_status_witness :
    parse_value (43 :: ([80, 79, 78, 71] ++ 13 :: 10 :: []))
      = .ok (Value.Status [80, 79, 78, 71], [])
    ∧ parse_value (43 :: ([79, 75] ++ 13 :: 10 :: [])) = .ok (Value.Okay, []) := by
  constructor
  · have h := claim_C8_status [80, 79, 78, 71] [] (by decide) (by decide)
    rw [if_neg (by decide)] at h
    exact h
  · have h := claim_C8_status [79, 75] [] (by decide) (by decide)
    rw [if_pos (by decide)] at h
    exact h

/-! ### Claim C9: error classification -/

/-- Claim C9: an error reply (tag `-`) never yields a value; on a text
line it always fails with description "An error was signaled by the
server", the kind obtained by splitting at the first space and mapping the
code token (`ERR`, `EXECABORT`, `LOADING`, `NOSCRIPT`, else
`ExtensionError code`), and the detail equal to the remainder after the
space when one exists. -/
theorem claim_C9_error_classification :
    (∀ input v rest, parse_value (45 :: input) ≠ .ok (v, rest))
    ∧ (∀ line rest, utf8Valid line = true → (∀ b ∈ line, b ≠ 13 ∧ b ≠ 10) →
        parse_value (45 :: (line ++ 13 :: 10 :: rest))
          = .error ⟨kindOfCode (splitn2 line).1, serverErrDesc, (splitn2 line).2⟩) := by
  constructor
  · intro input v rest
    rw [parse_value_cons]
    norm_num
    cases h : read_string_line input with
    | error e => simp [parse_error, h]
    | ok p =>
      obtain ⟨line, rest2⟩ := p
      cases hd : (splitn2 line).2 with
      | none => simp [parse_error, h, hd]
      | some d => simp [parse_error, h, hd]
  · intro line rest hv hc
    rw [parse_value_cons]
    norm_num
    cases hd : (splitn2 line).2 with
    | none => simp [parse_error, read_string_line_app rest hc hv, hd]
    | some d => simp [parse_error, read_string_line_app rest hc hv, hd]

/-- Witness for claim C9: `"-WRONGTYPE bad op\r\n"` gives
`ExtensionError "WRONGTYPE"` with detail `"bad op"`, and
`"-ERR unknown\r\n"` gives `ResponseError` with detail `"unknown"`. -/
theorem claim_C9_error_classification_witness :
    parse_value (45 :: (asciiBytes "WRONGTYPE bad op" ++ 13 :: 10 :: []))
      = .error ⟨.ExtensionError (asciiBytes "WRONGTYPE"), serverErrDesc,
          some (asciiBytes "bad op")⟩
    ∧ parse_value (45 :: (asciiBytes "ERR unknown" ++ 13 :: 10 :: []))
      = .error ⟨.ResponseError, serverErrDesc, some (asciiBytes "unknown")⟩ := by
  constructor
  · have h := claim_C9_error_classification.2 (asciiBytes "WRONGTYPE bad op") []
      (by decide) (by decide)
    rw [show splitn2 (asciiBytes "WRONGTYPE bad op")
        = (asciiBytes "WRONGTYPE", some (asciiBytes "bad op")) from by decide] at h
    rw [show kindOfCode (asciiBytes "WRONGTYPE")
        = .ExtensionError (asciiBytes "WRONGTYPE") from by decide] at h
    exact h
  · have h := claim_C9_error_classification.2 (asciiBytes "ERR unknown") []
      (by decide) (by decide)
    rw [show splitn2 (asciiBytes "ERR unknown")
        = (asciiBytes "ERR", some (asciiBytes "unknown")) from by decide] at h
    rw [show kindOfCode (asciiBytes "ERR") = ErrorKind.ResponseError from by decide] at h
    exact h

/-! ### Claim C10: whitespace trimming of integer and length lines

`asciiTrim` follows the claim's words — strip leading and trailing ASCII
whitespace (tab, LF, VT, FF, CR, space) — so the claim can be stated
against it and compared with the code's `rustTrim`. -/

def asciiTrimStart : List Nat → List Nat
  | [] => []
  | b :: r => if isWsByte1 b then asciiTrimStart r else b :: r

/-- The claim's trim: remove leading and trailing ASCII whitespace. -/
def asciiTrim (s : List Nat) : List Nat :=
  (asciiTrimStart (asciiTrimStart s).reverse).reverse

theorem asciiTrimStart_decomp (s : List Nat) :
    ∃ a, s = a ++ asciiTrimStart s ∧ ∀ b ∈ a, isWsByte1 b = true := by
  induction s with
  | nil => exact ⟨[], rfl, by simp⟩
  | cons b r ih =>
    by_cases h : isWsByte1 b
    · obtain ⟨a, ha, hw⟩ := ih
      refine ⟨b :: a, ?_, ?_⟩
      · rw [asciiTrimStart, if_pos h, List.cons_append, ← ha]
      · intro x hx
        rcases List.mem_cons.mp hx with rfl | hx
        · exact h
        · exact hw x hx
    · refine ⟨[], ?_, by simp⟩
      rw [asciiTrimStart, if_neg h, List.nil_append]

theorem rustTrimStart_ws_strip {a : List Nat} (m : List Nat)
    (h : ∀ b ∈ a, isWsByte1 b = true) :
    rustTrimStart (a ++ m) = rustTrimStart m := by
  induction a with
  | nil => rw [List.nil_append]
  | cons b r ih =>
    rw [List.cons_append, rustTrimStart_cons_ws _ (h b (by simp))]
    exact ih (fun x hx => h x (by simp [hx]))

theorem rustTrimEndRev_ws_strip {a : List Nat} (m : List Nat)
    (h : ∀ b ∈ a, isWsByte1 b = true) :
    rustTrimEndRev (a ++ m) = rustTrimEndRev m := by
  induction a with
  | nil => rw [List.nil_append]
  | cons b r ih =>
    rw [List.cons_append, rustTrimEndRev_cons_ws _ (h b (by simp))]
    exact ih (fun x hx => h x (by simp [hx]))

theorem parseDigits_some {s : List Nat} {n : Nat} (h : parseDigits s = some n) :
    s ≠ [] ∧ ∀ b ∈ s, 48 ≤ b ∧ b ≤ 57 := by
  by_cases he : s = []
  · rw [he] at h
    simp [parseDigits] at h
  · refine ⟨he, ?_⟩
    by_cases hall : s.all isDigitB
    · intro b hb
      have := List.all_eq_true.mp hall b hb
      simp [isDigitB] at this
      exact this
    · rw [parseDigits] at h
      simp [he, hall] at h

theorem parseI64_head {b : Nat} {r : List Nat} {v : Int}
    (h : parseI64 (b :: r) = some v) : 43 ≤ b ∧ b ≤ 57 := by
  simp only [parseI64] at h
  by_cases h43 : b = 43
  · omega
  · by_cases h45 : b = 45
    · omega
    · simp only [h43, h45, if_false] at h
      cases hp : parseDigits (b :: r) with
      | none => rw [hp] at h; simp at h
      | some n =>
        have := (parseDigits_some hp).2 b (by simp)
        omega

theorem parseI64_last {s : List Nat} {v : Int} (h : parseI64 s = some v) :
    ∃ t d, s = t ++ [d] ∧ 48 ≤ d ∧ d ≤ 57 := by
  cases s with
  | nil => simp [parseI64] at h
  | cons b r =>
    simp only [parseI64] at h
    by_cases h43 : b = 43
    · simp only [h43, if_pos rfl] at h
      cases hp : parseDigits r with
      | none => rw [hp] at h; simp at h
      | some n =>
        obtain ⟨hne, hdig⟩ := parseDigits_some hp
        rcases List.eq_nil_or_concat r with rfl | ⟨t, d, rfl⟩
        · exact absurd rfl hne
        · have hd := hdig d (by simp)
          exact ⟨b :: t, d, by simp, hd.1, hd.2⟩
    · by_cases h45 : b = 45
      · simp only [h43, if_false, h45, if_pos rfl] at h
        cases hp : parseDigits r with
        | none => rw [hp] at h; simp at h
        | some n =>
          obtain ⟨hne, hdig⟩ := parseDigits_some hp
          rcases List.eq_nil_or_concat r with rfl | ⟨t, d, rfl⟩
          · exact absurd rfl hne
          · have hd := hdig d (by simp)
            exact ⟨b :: t, d, by simp, hd.1, hd.2⟩
      · simp only [h43, h45, if_false] at h
        cases hp : parseDigits (b :: r) with
        | none => rw [hp] at h; simp at h
        | some n =>
          obtain ⟨hne, hdig⟩ := parseDigits_some hp
          rcases List.eq_nil_or_concat (b :: r) with hnil | ⟨t, d, hcat⟩
          · exact absurd hnil (by simp)
          · have hd := hdig d (by rw [hcat]; simp)
            exact ⟨t, d, by rw [hcat, List.concat_eq_append], hd.1, hd.2⟩

/-- When the ASCII-trimmed line parses as an integer, the code's Unicode
trim agrees with the ASCII trim on that line: the sign or digit adjacent
to the ASCII whitespace stops both trims at the same place. -/
theorem rustTrim_eq_asciiTrim {line : List Nat} {v : Int}
    (hp : parseI64 (asciiTrim line) = some v) :
    rustTrim line = asciiTrim line := by
  obtain ⟨a, hline, hws⟩ := asciiTrimStart_decomp line
  obtain ⟨a2, hm1rev, hws2⟩ := asciiTrimStart_decomp (asciiTrimStart line).reverse
  have hmrev : (asciiTrim line).reverse = asciiTrimStart (asciiTrimStart line).reverse := by
    rw [asciiTrim, List.reverse_reverse]
  have hm1eq : asciiTrimStart line = asciiTrim line ++ a2.reverse := by
    have h1 : (asciiTrimStart line).reverse = a2 ++ (asciiTrim line).reverse := by
      rw [hmrev]
      exact hm1rev
    calc asciiTrimStart line
        = (asciiTrimStart line).reverse.reverse := by rw [List.reverse_reverse]
      _ = (a2 ++ (asciiTrim line).reverse).reverse := by rw [h1]
      _ = (asciiTrim line).reverse.reverse ++ a2.reverse := by rw [List.reverse_append]
      _ = asciiTrim line ++ a2.reverse := by rw [List.reverse_reverse]
  obtain ⟨b0, t, hmcons⟩ : ∃ b0 t, asciiTrim line = b0 :: t := by
    cases hm : asciiTrim line with
    | nil => rw [hm] at hp; simp [parseI64] at hp
    | cons x y => exact ⟨x, y, rfl⟩
  have hb0 : 43 ≤ b0 ∧ b0 ≤ 57 := by
    rw [hmcons] at hp
    exact parseI64_head hp
  obtain ⟨t', d, hmlast, hd1, hd2⟩ := parseI64_last hp
  have hstart0 : rustTrimStart line = asciiTrimStart line := by
    calc rustTrimStart line
        = rustTrimStart (a ++ asciiTrimStart line) := by rw [← hline]
      _ = rustTrimStart (asciiTrimStart line) := rustTrimStart_ws_strip _ hws
      _ = asciiTrimStart line := by
          rw [hm1eq, hmcons, List.cons_append]
          exact rustTrimStart_stop (@wsPrefixLen_stop b0 (t ++ a2.reverse) (by omega) (by omega))
  have hrevline : (rustTrimStart line).reverse = a2 ++ (asciiTrim line).reverse := by
    rw [hstart0, hm1eq, List.reverse_append, List.reverse_reverse]
  have hdrev : (asciiTrim line).reverse = d :: t'.reverse := by
    rw [hmlast, List.reverse_append]
    rfl
  have hend : rustTrimEndRev (a2 ++ (asciiTrim line).reverse) = (asciiTrim line).reverse := by
    rw [rustTrimEndRev_ws_strip _ hws2, hdrev]
    exact rustTrimEndRev_stop (@wsSuffixRevLen_stop d t'.reverse (by omega) (by omega))
  rw [rustTrim, hrevline, hend, List.reverse_reverse]

/-- Claim C10: the decoder trims whitespace off integer and length lines
before parsing — any line whose ASCII-whitespace-trimmed content is a
valid signed 64-bit decimal decodes to that integer, so `": 12 \r\n"`
decodes to `Int 12`; and a line whose trimmed content does not parse
fails with `ResponseError` ("Expected integer, got garbage"). -/
theorem claim_C10_trim :
    (∀ line rest (v : Int), utf8Valid line = true → (∀ b ∈ line, b ≠ 13 ∧ b ≠ 10) →
      parseI64 (asciiTrim line) = some v →
      parse_value (58 :: (line ++ 13 :: 10 :: rest)) = .ok (Value.Int v, rest))
    ∧ parse_value [58, 32, 49, 50, 32, 13, 10] = .ok (Value.Int 12, [])
    ∧ (∀ line rest, utf8Valid line = true → (∀ b ∈ line, b ≠ 13 ∧ b ≠ 10) →
      parseI64 (rustTrim line) = none →
      parse_value (58 :: (line ++ 13 :: 10 :: rest))
        = .error ⟨.ResponseError, "Expected integer, got garbage", none⟩) := by
  refine ⟨?_, ?_, ?_⟩
  · intro line rest v hv hc hp
    rw [parse_value_cons]
    norm_num
    rw [parse_int_value,
      read_int_value_app rest hc hv (by rw [rustTrim_eq_asciiTrim hp]; exact hp)]
  · rfl
  · intro line rest hv hc hp
    rw [parse_value_cons]
    norm_num
    simp [parse_int_value, read_int_value, read_string_line_app rest hc hv, hp]

/-- Witness for claim C10: the line `" 12 "` (ASCII spaces around digits)
decodes to `Int 12`, and the line `"a"` fails with the integer-parse
error. -/
theorem claim_C10_trim_witness :
    parse_value (58 :: ([32, 49, 50, 32] ++ 13 :: 10 :: [])) = .ok (Value.Int 12, [])
    ∧ parse_value (58 :: ([97] ++ 13 :: 10 :: []))
      = .error ⟨.ResponseError, "Expected integer, got garbage", none⟩ :=
  ⟨claim_C10_trim.1 [32, 49, 50, 32] [] 12 (by decide) (by decide) (by decide),
   claim_C10_trim.2.2 [97] [] (by decide) (by decide) (by decide)⟩

end RedisClient
